import Mathlib

/-!
Verification of the tessera syntax-editor component.

This file shallowly embeds the editor pipeline of
`tessera-ui-basic-components/src/syntax_edit_core.rs` and
`tessera-ui-basic-components/src/syntax_editor.rs`:

* the selection-rectangle clipping routine (`clip_and_take_visible`),
* the transactional content-change routine (`handle_action`) together with
  the buffer-content extraction (`get_editor_content`),
* the IME preedit/commit event dispatch,
* the keyboard/IME focus gate and the select-all special case,
* the pointer press/drag dispatch, and
* the measurement pass (constraint resolution, highlighter hook, layout
  query, geometry, draw emission, returned size), instrumented with an
  event trace to settle ordering properties.

Pixel quantities (the Rust `Px` newtype over `i32`) are modelled as `Int`;
none of the verified properties concern 32-bit overflow. Strings are
modelled as `List Char` (Rust iterates `chars()` wherever it matters).
External collaborators (the cosmic-text/glyphon buffer editor, the key
mapping table, the click classifier) are modelled from the spec or taken
as parameters, as documented on each definition.
-/

namespace Tessera

/-! ## Geometry: rectangles and viewport clipping

From `syntax_edit_core.rs`. `RectDef` is the plain rectangle record
produced by `compute_selection_rects` and consumed by the draw step. -/

structure RectDef where
  x : Int
  y : Int
  width : Int
  height : Int
deriving DecidableEq, Repr

/-- The drop condition of `clip_and_take_visible`'s `filter_map` closure
(`syntax_edit_core.rs` lines 50-56): the rectangle has no overlap with the
viewport anchored at the origin with corner `(x1, y1)`. -/
def outsideViewport (r : RectDef) (x1 y1 : Int) : Bool :=
  decide (r.x + r.width ≤ 0) || decide (r.y ≥ y1) || decide (r.x ≥ x1)
    || decide (r.y + r.height ≤ 0)

/-- The intersect-and-clamp transform of `clip_and_take_visible`'s closure
(`syntax_edit_core.rs` lines 59-67). -/
def clampRect (x1 y1 : Int) (r : RectDef) : RectDef :=
  let rect_x1 := r.x + r.width
  let rect_y1 := r.y + r.height
  let new_x := max r.x 0
  let new_y := max r.y 0
  let new_x1 := min rect_x1 x1
  let new_y1 := min rect_y1 y1
  { x := new_x, y := new_y,
    width := max (new_x1 - new_x) 0, height := max (new_y1 - new_y) 0 }

/-- The per-rectangle body of the `filter_map` in `clip_and_take_visible`
(`syntax_edit_core.rs` lines 49-68). -/
def clipRect (x1 y1 : Int) (r : RectDef) : Option RectDef :=
  if outsideViewport r x1 y1 then none else some (clampRect x1 y1 r)

/-- `clip_and_take_visible` (`syntax_edit_core.rs` lines 43-71): the Rust
body is `rects.into_iter().filter_map(..).collect()`. -/
def clip_and_take_visible (rects : List RectDef) (x1 y1 : Int) : List RectDef :=
  rects.filterMap (clipRect x1 y1)

/-- A rectangle lying entirely inside the viewport `(0,0)-(x1,y1)`,
with nonnegative extent (the literal geometric reading of "entirely
inside" for a rectangle value). -/
def insideViewport (r : RectDef) (x1 y1 : Int) : Prop :=
  0 ≤ r.x ∧ 0 ≤ r.y ∧ 0 ≤ r.width ∧ 0 ≤ r.height ∧
    r.x + r.width ≤ x1 ∧ r.y + r.height ≤ y1

instance (r : RectDef) (x1 y1 : Int) : Decidable (insideViewport r x1 y1) := by
  unfold insideViewport; infer_instance

/-- A rectangle entirely inside the viewport with positive extent. -/
def insideViewportPos (r : RectDef) (x1 y1 : Int) : Prop :=
  0 ≤ r.x ∧ 0 ≤ r.y ∧ 0 < r.width ∧ 0 < r.height ∧
    r.x + r.width ≤ x1 ∧ r.y + r.height ≤ y1

instance (r : RectDef) (x1 y1 : Int) : Decidable (insideViewportPos r x1 y1) := by
  unfold insideViewportPos; infer_instance

lemma clip_eq_filter_map (rects : List RectDef) (x1 y1 : Int) :
    clip_and_take_visible rects x1 y1
      = (rects.filter (fun r => ! outsideViewport r x1 y1)).map (clampRect x1 y1) := by
  induction rects with
  | nil => rfl
  | cons r rs ih =>
      by_cases h : outsideViewport r x1 y1
      · simp [clip_and_take_visible, clipRect, List.filterMap_cons, h,
          List.filter_cons] at ih ⊢
        exact ih
      · simp [clip_and_take_visible, clipRect, List.filterMap_cons, h,
          List.filter_cons] at ih ⊢
        exact ih

/-- C2: for every input list and viewport corner `(x1, y1)` with
`x1 ≥ 0` and `y1 ≥ 0`, every rectangle returned by
`clip_and_take_visible` has nonnegative width and height and lies
entirely within the viewport from `(0,0)` to `(x1, y1)`. -/
theorem clip_and_take_visible_within_viewport
    (rects : List RectDef) (x1 y1 : Int) (hx : 0 ≤ x1) (hy : 0 ≤ y1) :
    ∀ r ∈ clip_and_take_visible rects x1 y1,
      0 ≤ r.x ∧ 0 ≤ r.y ∧ 0 ≤ r.width ∧ 0 ≤ r.height ∧
        r.x + r.width ≤ x1 ∧ r.y + r.height ≤ y1 := by
  intro r hr
  rw [clip_and_take_visible, List.mem_filterMap] at hr
  obtain ⟨r0, _, hclip⟩ := hr
  rw [clipRect] at hclip
  by_cases hout : outsideViewport r0 x1 y1
  · simp [hout] at hclip
  · simp [hout] at hclip
    subst hclip
    simp only [outsideViewport, Bool.or_eq_true, decide_eq_true_eq, not_or] at hout
    simp only [clampRect]
    omega

/-- Witness for C2 at a concrete input: the rectangle `(-1,-1,5,5)`
clipped against the viewport `(3,3)` yields `(0,0,3,3)`, which satisfies
the containment bounds. -/
theorem clip_and_take_visible_within_viewport_witness :
    0 ≤ (3 : Int) ∧
      (⟨0, 0, 3, 3⟩ : RectDef) ∈ clip_and_take_visible [⟨-1, -1, 5, 5⟩] 3 3 ∧
      (0 ≤ (⟨0, 0, 3, 3⟩ : RectDef).x ∧ 0 ≤ (⟨0, 0, 3, 3⟩ : RectDef).y ∧
        0 ≤ (⟨0, 0, 3, 3⟩ : RectDef).width ∧ 0 ≤ (⟨0, 0, 3, 3⟩ : RectDef).height ∧
        (⟨0, 0, 3, 3⟩ : RectDef).x + (⟨0, 0, 3, 3⟩ : RectDef).width ≤ 3 ∧
        (⟨0, 0, 3, 3⟩ : RectDef).y + (⟨0, 0, 3, 3⟩ : RectDef).height ≤ 3) :=
  ⟨by decide, by decide,
    clip_and_take_visible_within_viewport [⟨-1, -1, 5, 5⟩] 3 3
      (by decide) (by decide) ⟨0, 0, 3, 3⟩ (by decide)⟩

/-- C3 counterexample: the degenerate rectangle `(0,0,0,1)` lies entirely
inside the viewport `(0,0)-(10,10)` (all claim bounds hold), yet
`clip_and_take_visible` drops it (`x + width ≤ 0` triggers the no-overlap
filter), so it is not returned unchanged as the claim states. -/
theorem clip_inside_dropped_counterexample :
    insideViewport ⟨0, 0, 0, 1⟩ 10 10 ∧
      clip_and_take_visible [⟨0, 0, 0, 1⟩] 10 10 = [] := by
  constructor
  · decide
  · decide

/-- C3 (amended): the result of `clip_and_take_visible` is exactly the
input's non-`outsideViewport` rectangles, in input order, each intersected
with the viewport; a rectangle satisfying one of the outside conditions
(`x ≥ x1`, `y ≥ y1`, `x + width ≤ 0`, `y + height ≤ 0`) is dropped, and a
rectangle entirely inside the viewport with positive width and height is
kept unchanged. -/
theorem clip_and_take_visible_exclusion_order
    (rects : List RectDef) (x1 y1 : Int) :
    clip_and_take_visible rects x1 y1
        = (rects.filter (fun r => ! outsideViewport r x1 y1)).map (clampRect x1 y1) ∧
      ∀ r : RectDef, insideViewportPos r x1 y1 →
        outsideViewport r x1 y1 = false ∧ clampRect x1 y1 r = r := by
  refine ⟨clip_eq_filter_map rects x1 y1, ?_⟩
  intro r hr
  obtain ⟨rx, ry, rw, rh⟩ := r
  simp only [insideViewportPos] at hr
  obtain ⟨h1, h2, h3, h4, h5, h6⟩ := hr
  constructor
  · simp only [outsideViewport, Bool.or_eq_false_iff, decide_eq_false_iff_not, not_le, not_lt]
    omega
  · simp only [clampRect, RectDef.mk.injEq]
    omega

/-- Witness for C3 (amended) at a concrete input: with viewport `(10,10)`
and input containing an outside rectangle and an inside one, the theorem
instantiates and the inside rectangle `(1,1,2,2)` is untouched. -/
theorem clip_and_take_visible_exclusion_order_witness :
    (clip_and_take_visible [⟨20, 0, 2, 2⟩, ⟨1, 1, 2, 2⟩] 10 10
        = ((([⟨20, 0, 2, 2⟩, ⟨1, 1, 2, 2⟩] : List RectDef).filter
            (fun r => ! outsideViewport r 10 10)).map (clampRect 10 10)) ∧
      (outsideViewport ⟨1, 1, 2, 2⟩ 10 10 = false ∧
        clampRect 10 10 ⟨1, 1, 2, 2⟩ = ⟨1, 1, 2, 2⟩)) :=
  ⟨(clip_and_take_visible_exclusion_order [⟨20, 0, 2, 2⟩, ⟨1, 1, 2, 2⟩] 10 10).1,
    (clip_and_take_visible_exclusion_order [⟨20, 0, 2, 2⟩, ⟨1, 1, 2, 2⟩] 10 10).2
      ⟨1, 1, 2, 2⟩ (by decide)⟩

/-! ## Editor buffer model

The buffer editor itself is an external collaborator (cosmic-text /
glyphon, spec section 6): a text buffer made of lines, a cursor, a
selection, and dispatchable edit actions. The definitions below model
that collaborator from the spec; the routines `get_editor_content` and
`handle_action` further down are translated from `syntax_editor.rs`. -/

/-- Buffer actions dispatched through the transactional apply routine.
Keyboard insertion and backspace are the actions the claims exercise. -/
inductive EdAction where
  | insert (c : Char)
  | backspace
deriving DecidableEq, Repr

/-- Modelled from the spec: the external text buffer/editor object
(spec section 6: "cursor/selection queries, dispatchable
edit/motion/selection/scroll actions, cloning, and reactive full-text
replacement"). Lines never contain a newline character; the cursor is a
(line, column) pair; the selection is an optional anchor. -/
structure Editor where
  lines : List (List Char)
  row : Nat
  col : Nat
  sel : Option (Nat × Nat)
deriving DecidableEq, Repr

/-- The buffer line the cursor is on (empty if out of range). -/
def curLine (e : Editor) : List Char :=
  e.lines.getD e.row []

/-- Modelled from the spec: dispatching an edit action on the external
buffer editor. `insert` places the character at the cursor (splitting the
line on a newline); `backspace` removes the character before the cursor,
merging with the previous line at column zero. -/
def applyAction : EdAction → Editor → Editor
  | .insert c, e =>
      if c = '\n' then
        let l := curLine e
        { e with
          lines := e.lines.take e.row ++ [l.take e.col, l.drop e.col]
            ++ e.lines.drop (e.row + 1),
          row := e.row + 1, col := 0 }
      else
        let l := curLine e
        { e with
          lines := e.lines.set e.row (l.take e.col ++ c :: l.drop e.col),
          col := e.col + 1 }
  | .backspace, e =>
      if 0 < e.col then
        let l := curLine e
        { e with
          lines := e.lines.set e.row (l.take (e.col - 1) ++ l.drop e.col),
          col := e.col - 1 }
      else if 0 < e.row then
        let prev := e.lines.getD (e.row - 1) []
        { e with
          lines := e.lines.take (e.row - 1) ++ [prev ++ curLine e]
            ++ e.lines.drop (e.row + 1),
          row := e.row - 1, col := prev.length }
      else e

/-- `get_editor_content` (`syntax_editor.rs` lines 365-377): push every
buffer line followed by a newline, then pop the trailing newline if the
accumulated content ends with one. -/
def get_editor_content (e : Editor) : List Char :=
  let content := (e.lines.map (fun l => l ++ ['\n'])).flatten
  if content.getLast? = some '\n' then content.dropLast else content

/-- Splitting a text on newline characters into buffer lines (how a
full-text replacement populates the line list; the empty text yields one
empty line, matching the buffer's at-least-one-line shape). -/
def splitNl : List Char → List (List Char)
  | [] => [[]]
  | c :: cs =>
      if c = '\n' then [] :: splitNl cs
      else
        match splitNl cs with
        | [] => [[c]]
        | l :: ls => (c :: l) :: ls

/-- Modelled from the spec: `set_text_reactive`, the external editor's
"reactive full-text replacement with a font-family attribute" (spec
section 6). Reactive: when the new content equals the current content the
buffer is left untouched (cursor preserved); otherwise the lines are
replaced and the cursor reset. -/
def set_text_reactive (e : Editor) (t : List Char) : Editor :=
  if get_editor_content e = t then e
  else { lines := splitNl t, row := 0, col := 0, sel := none }

/-- `handle_action` (`syntax_editor.rs` lines 380-412): clone the
editor (giving the clone its own buffer), apply the action to the clone,
read the clone's full content, apply the same action to the real editor,
pass the clone's content through `on_change`, and overwrite the real
buffer's text with the callback's result. -/
def handle_action (state : Editor) (action : EdAction)
    (on_change : List Char → List Char) : Editor :=
  let new_editor := state
  let new_editor := applyAction action new_editor
  let content_after_action := get_editor_content new_editor
  let state := applyAction action state
  let new_content := on_change content_after_action
  set_text_reactive state new_content

/-- The default content-change callback (`syntax_editor.rs` line 42:
the builder default is a closure returning an empty string). -/
def default_on_change : List Char → List Char := fun _ => []

/-- Joining buffer lines with single newline separators. -/
def intercalateNl : List (List Char) → List Char
  | [] => []
  | [l] => l
  | l :: l2 :: ls => l ++ '\n' :: intercalateNl (l2 :: ls)

lemma flatten_append_nl (lines : List (List Char)) (hne : lines ≠ []) :
    (lines.map (fun l => l ++ ['\n'])).flatten = intercalateNl lines ++ ['\n'] := by
  induction lines with
  | nil => exact absurd rfl hne
  | cons l ls ih =>
      cases ls with
      | nil => simp [intercalateNl]
      | cons l2 ls2 =>
          rw [List.map_cons, List.flatten_cons, ih (by simp)]
          simp [intercalateNl]

lemma get_editor_content_eq_intercalate (e : Editor) :
    get_editor_content e = intercalateNl e.lines := by
  rcases h : e.lines with _ | ⟨l, ls⟩
  · simp [get_editor_content, intercalateNl, h]
  · rw [get_editor_content, h, flatten_append_nl (l :: ls) (by simp)]
    simp [List.getLast?_concat, List.dropLast_concat]

lemma splitNl_ne_nil (t : List Char) : splitNl t ≠ [] := by
  cases t with
  | nil => simp [splitNl]
  | cons c cs =>
      rw [splitNl]
      by_cases h : c = '\n'
      · simp [h]
      · simp only [h, if_false]
        rcases hs : splitNl cs with _ | ⟨l, ls⟩ <;> simp

lemma intercalateNl_cons_cons (c : Char) (l : List Char) (ls : List (List Char)) :
    intercalateNl ((c :: l) :: ls) = c :: intercalateNl (l :: ls) := by
  cases ls <;> simp [intercalateNl]

lemma intercalateNl_splitNl (t : List Char) :
    intercalateNl (splitNl t) = t := by
  induction t with
  | nil => simp [splitNl, intercalateNl]
  | cons c cs ih =>
      rw [splitNl]
      by_cases h : c = '\n'
      · subst h
        simp only [if_pos rfl]
        rcases hs : splitNl cs with _ | ⟨l, ls⟩
        · exact absurd hs (splitNl_ne_nil cs)
        · rw [hs] at ih
          simp [intercalateNl, ih]
      · simp only [h, if_false]
        rcases hs : splitNl cs with _ | ⟨l, ls⟩
        · exact absurd hs (splitNl_ne_nil cs)
        · rw [hs] at ih
          rw [intercalateNl_cons_cons, ih]

lemma get_set_text_reactive (e : Editor) (t : List Char) :
    get_editor_content (set_text_reactive e t) = t := by
  rw [set_text_reactive]
  by_cases h : get_editor_content e = t
  · simp [h]
  · simp only [h, if_false]
    rw [get_editor_content_eq_intercalate]
    exact intercalateNl_splitNl t

lemma get_handle_action (st : Editor) (a : EdAction)
    (cb : List Char → List Char) :
    get_editor_content (handle_action st a cb)
      = cb (get_editor_content (applyAction a st)) := by
  rw [handle_action]
  exact get_set_text_reactive _ _

/-- C1: for every action routed through `handle_action`, the buffer's
final text equals the content-change callback applied to the text the
buffer holds immediately after the action; in particular, with an
`on_change` returning the fixed string "X", any single keyboard insertion
leaves exactly "X" in the buffer. -/
theorem handle_action_transactional (st : Editor) (a : EdAction)
    (cb : List Char → List Char) (c : Char) :
    get_editor_content (handle_action st a cb)
        = cb (get_editor_content (applyAction a st)) ∧
      get_editor_content (handle_action st (.insert c) (fun _ => ['X'])) = ['X'] :=
  ⟨get_handle_action st a cb, get_handle_action st (.insert c) (fun _ => ['X'])⟩

/-- C5: with the default callback (no `on_change` supplied), every action
routed through `handle_action` — in particular any insertion — results in
an empty buffer. -/
theorem handle_action_default_empties (st : Editor) (a : EdAction) :
    get_editor_content (handle_action st a default_on_change) = [] :=
  get_handle_action st a default_on_change

/-! ## IME events (`syntax_editor.rs` lines 337-357)

The dispatcher's state couples the buffer editor with the recorded
preedit string (`TextEditorState.preedit_string`). -/

structure EditorIme where
  ed : Editor
  preedit : Option (List Char)
deriving DecidableEq, Repr

/-- Applying `n` Backspace actions through `handle_action`
(`for _ in 0..preedit_text.chars().count()`). -/
def backspaceN (cb : List Char → List Char) : Nat → Editor → Editor
  | 0, e => e
  | n + 1, e => backspaceN cb n (handle_action e .backspace cb)

/-- Inserting every character of a text through `handle_action`
(`for c in text.chars()`). -/
def insertAll (cb : List Char → List Char) (t : List Char) (e : Editor) : Editor :=
  t.foldl (fun e c => handle_action e (.insert c) cb) e

/-- IME events as received by the input handler (winit `Ime::Commit`,
`Ime::Preedit`; every other variant falls into the catch-all arm). -/
inductive ImeEvent where
  | commit (t : List Char)
  | preedit (t : List Char)
  | otherEvent
deriving DecidableEq, Repr

/-- One IME event dispatched by the input handler (`syntax_editor.rs`
lines 341-356): commit and preedit both first take the recorded preedit
string (leaving none) and retract it with one Backspace per character,
then insert each character of the event's text; a preedit update then
records its text as the new preedit string. -/
def ime_event_step (cb : List Char → List Char) (st : EditorIme) :
    ImeEvent → EditorIme
  | .commit t =>
      match st.preedit with
      | some preedit_text =>
          { ed := insertAll cb t (backspaceN cb preedit_text.length st.ed),
            preedit := none }
      | none => { ed := insertAll cb t st.ed, preedit := none }
  | .preedit t =>
      match st.preedit with
      | some old_preedit =>
          { ed := insertAll cb t (backspaceN cb old_preedit.length st.ed),
            preedit := some t }
      | none => { ed := insertAll cb t st.ed, preedit := some t }
  | .otherEvent => st

/-- The empty editor buffer: one empty line, cursor at the origin. -/
def emptyEditor : Editor := { lines := [[]], row := 0, col := 0, sel := none }

/-- C4: an IME preedit update retracts the previously recorded preedit
with exactly one Backspace per character before inserting the new text
character by character, and replaces (not appends) the recorded preedit
string; concretely, preedit "ab" followed by preedit "abc" on an empty
buffer (identity callback) leaves exactly "abc", not "ababc". -/
theorem ime_preedit_replaces (st : EditorIme) (t : List Char)
    (ed : Editor) (old : List Char) (cb : List Char → List Char) :
    (ime_event_step cb st (.preedit t)).preedit = some t ∧
      ime_event_step cb ⟨ed, some old⟩ (.preedit t)
        = ⟨insertAll cb t (backspaceN cb old.length ed), some t⟩ ∧
      (ime_event_step id
          (ime_event_step id ⟨emptyEditor, none⟩ (.preedit ['a', 'b']))
          (.preedit ['a', 'b', 'c'])).ed.lines = [['a', 'b', 'c']] ∧
      (ime_event_step id
          (ime_event_step id ⟨emptyEditor, none⟩ (.preedit ['a', 'b']))
          (.preedit ['a', 'b', 'c'])).preedit = some ['a', 'b', 'c'] := by
  refine ⟨?_, rfl, by decide, by decide⟩
  rw [ime_event_step]
  cases st.preedit <;> rfl

/-! ## Keyboard events and the focus gate (`syntax_editor.rs` lines 301-361) -/

/-- Keyboard modifier state (the dispatcher only reads the control and
super keys). -/
structure Modifiers where
  control : Bool
  superKey : Bool
deriving DecidableEq, Repr

/-- The logical key of a key event (`winit::keyboard::Key`): a character
key carrying its text, or any other key. -/
inductive LogicalKey where
  | character (s : List Char)
  | otherKey
deriving DecidableEq, Repr

/-- A keyboard event: logical key plus pressed/released state. -/
structure KeyEvent where
  logical_key : LogicalKey
  pressed : Bool
deriving DecidableEq, Repr

/-- The select-all detection predicate (`syntax_editor.rs` lines
306-310): a pressed character key whose lowercase text is "a" while
control or super is held. -/
def isSelectAllEvent (mods : Modifiers) (ke : KeyEvent) : Bool :=
  match ke.logical_key with
  | .character s =>
      (mods.control || mods.superKey) && (s.map Char.toLower == ['a']) && ke.pressed
  | .otherKey => false

/-- Modelled from the spec / `syntax_editor.rs` lines 313-317: the
select-all sequence sets the cursor to the buffer start, anchors a
selection there, then dispatches a motion to the buffer end. -/
def applySelectAll (e : Editor) : Editor :=
  let lastRow := e.lines.length - 1
  let lastCol := (e.lines.getD lastRow []).length
  { e with row := lastRow, col := lastCol, sel := some (0, 0) }

/-- The keyboard branch of the focused input handler (`syntax_editor.rs`
lines 305-332): if some event is a control/command "a" press, run only the
select-all sequence; otherwise map every keyboard event through the key
mapping collaborator (`map_key_event_to_action`, an external table taken
here as a parameter) and apply each resulting action through
`handle_action`. -/
def keyboard_step (keymap : KeyEvent → Modifiers → Option (List EdAction))
    (cb : List Char → List Char) (mods : Modifiers)
    (events : List KeyEvent) (ed : Editor) : Editor :=
  match events.findIdx? (isSelectAllEvent mods) with
  | some _ => applySelectAll ed
  | none =>
      let all_actions :=
        events.foldl (fun acc ke => acc ++ ((keymap ke mods).getD [])) []
      all_actions.foldl (fun e a => handle_action e a cb) ed

/-- The keyboard and IME event lists of one input pass. -/
structure InputEvents where
  keyboard_events : List KeyEvent
  ime_events : List ImeEvent
deriving DecidableEq, Repr

/-- The keyboard/IME section of the input handler (`syntax_editor.rs`
lines 301-361): when the editor is not focused nothing runs and the event
lists pass through untouched; when focused, the keyboard branch runs, all
keyboard events are cleared, and the IME events are drained and
dispatched one by one. -/
def keyboard_ime_section (keymap : KeyEvent → Modifiers → Option (List EdAction))
    (cb : List Char → List Char) (focused : Bool) (mods : Modifiers)
    (st : EditorIme) (input : InputEvents) : EditorIme × InputEvents :=
  if focused then
    let st1 : EditorIme := { st with ed := keyboard_step keymap cb mods input.keyboard_events st.ed }
    let st2 := input.ime_events.foldl (fun s ev => ime_event_step cb s ev) st1
    (st2, { keyboard_events := [], ime_events := [] })
  else (st, input)

/-- C9: keyboard and IME events are consumed exactly when the editor is
focused: unfocused, the state and both event lists are untouched (no
action applied); focused, the keyboard list is cleared, the IME list is
drained, and the drained events are dispatched over the state. -/
theorem keyboard_ime_focus_gate
    (keymap : KeyEvent → Modifiers → Option (List EdAction))
    (cb : List Char → List Char) (mods : Modifiers)
    (st : EditorIme) (input : InputEvents) :
    keyboard_ime_section keymap cb false mods st input = (st, input) ∧
      (keyboard_ime_section keymap cb true mods st input).2.keyboard_events = [] ∧
      (keyboard_ime_section keymap cb true mods st input).2.ime_events = [] ∧
      (keyboard_ime_section keymap cb true mods st input).1
        = input.ime_events.foldl (fun s ev => ime_event_step cb s ev)
            { st with ed := keyboard_step keymap cb mods input.keyboard_events st.ed } :=
  ⟨rfl, rfl, rfl, rfl⟩

/-- C10: when a focused pass's keyboard list contains a control/command
"a" press anywhere, only the select-all sequence runs: the resulting
editor is `applySelectAll` of the incoming one, independent of the key
mapping collaborator and of every other keyboard event in the pass. -/
theorem keyboard_step_select_all
    (keymap : KeyEvent → Modifiers → Option (List EdAction))
    (cb : List Char → List Char) (mods : Modifiers)
    (events : List KeyEvent) (ed : Editor)
    (h : ∃ ke ∈ events, isSelectAllEvent mods ke = true) :
    keyboard_step keymap cb mods events ed = applySelectAll ed := by
  obtain ⟨ke, hmem, hke⟩ := h
  rw [keyboard_step]
  rcases hfind : events.findIdx? (isSelectAllEvent mods) with _ | i
  · rw [List.findIdx?_eq_none_iff] at hfind
    rw [hfind ke hmem] at hke
    cases hke
  · rfl

/-- Witness for C10 at a concrete input: a pass holding a ctrl-"A" press
and an unrelated key event executes only select-all. -/
theorem keyboard_step_select_all_witness :
    keyboard_step (fun _ _ => none) id ⟨true, false⟩
        [⟨.character ['A'], true⟩, ⟨.otherKey, true⟩] emptyEditor
      = applySelectAll emptyEditor :=
  keyboard_step_select_all (fun _ _ => none) id ⟨true, false⟩
    [⟨.character ['A'], true⟩, ⟨.otherKey, true⟩] emptyEditor
    ⟨⟨.character ['A'], true⟩, by decide, by decide⟩

/-! ## Pointer press/drag dispatch (`syntax_editor.rs` lines 199-267) -/

/-- Click classification (`ClickType` in `text_edit_core`). -/
inductive ClickType where
  | single
  | double
  | triple
deriving DecidableEq, Repr

/-- The dispatcher state read and written by the pointer paths: the
buffer editor, the focus flag, the dragging flag, and the click history
(last recorded click/drag position and timestamp). -/
structure PointerState where
  ed : Editor
  focused : Bool
  dragging : Bool
  lastClickPos : Option (Int × Int)
  lastTs : Int
deriving DecidableEq, Repr

/-- The press path (`syntax_editor.rs` lines 199-243), run when the pass
holds a pressed cursor event inside the editor bounds: request focus if
unfocused; then, if a pointer position is known, convert it to
text-relative coordinates by subtracting padding and border width, and
only when both coordinates are nonnegative classify the click
(`handle_click`, the external recency/proximity classifier, taken as the
`classify` parameter; it records the position and timestamp), dispatch the
click action on the editor, and enter the dragging state. -/
def pointer_press (classify : Option (Int × Int) → Int → (Int × Int) → Int → ClickType)
    (applyClick : ClickType → (Int × Int) → Editor → Editor)
    (padding borderWidth : Int) (st : PointerState)
    (cursorPos : Option (Int × Int)) (ts : Int) : PointerState :=
  let st := if st.focused then st else { st with focused := true }
  match cursorPos with
  | none => st
  | some (cx, cy) =>
      let text_relative_x := cx - padding - borderWidth
      let text_relative_y := cy - padding - borderWidth
      if 0 ≤ text_relative_x ∧ 0 ≤ text_relative_y then
        let pos := (text_relative_x, text_relative_y)
        let ct := classify st.lastClickPos st.lastTs pos ts
        { st with
          ed := applyClick ct pos st.ed,
          lastClickPos := some pos,
          lastTs := ts,
          dragging := true }
      else st

/-- The drag path (`syntax_editor.rs` lines 245-267): while dragging with
a known pointer position, convert it to text-relative coordinates; only
when both coordinates are nonnegative and the position differs from the
last recorded one, dispatch a drag action and record the new position. -/
def pointer_drag (applyDrag : (Int × Int) → Editor → Editor)
    (padding borderWidth : Int) (st : PointerState)
    (cursorPos : Option (Int × Int)) : PointerState :=
  if st.dragging then
    match cursorPos with
    | none => st
    | some (cx, cy) =>
        let text_relative_x := cx - padding - borderWidth
        let text_relative_y := cy - padding - borderWidth
        if 0 ≤ text_relative_x ∧ 0 ≤ text_relative_y then
          let pos := (text_relative_x, text_relative_y)
          if st.lastClickPos ≠ some pos then
            { st with ed := applyDrag pos st.ed, lastClickPos := some pos }
          else st
        else st
  else st

/-- C8: when the pointer position minus padding and border is negative in
either axis, both pointer paths are silent no-ops on the buffer: the press
path at most requests focus (editor, click history, and drag state are
untouched, no click is classified or dispatched), and the drag path
changes nothing (no drag action, no recorded position). -/
theorem pointer_negative_noop
    (classify : Option (Int × Int) → Int → (Int × Int) → Int → ClickType)
    (applyClick : ClickType → (Int × Int) → Editor → Editor)
    (applyDrag : (Int × Int) → Editor → Editor)
    (padding borderWidth : Int) (st : PointerState) (cx cy ts : Int)
    (hneg : cx - padding - borderWidth < 0 ∨ cy - padding - borderWidth < 0) :
    pointer_press classify applyClick padding borderWidth st (some (cx, cy)) ts
        = (if st.focused then st else { st with focused := true }) ∧
      pointer_drag applyDrag padding borderWidth st (some (cx, cy)) = st := by
  have hcond : ¬ (0 ≤ cx - padding - borderWidth ∧ 0 ≤ cy - padding - borderWidth) := by
    omega
  constructor
  · simp only [pointer_press]
    rw [if_neg hcond]
  · simp only [pointer_drag]
    by_cases hd : st.dragging
    · rw [if_pos hd, if_neg hcond]
    · rw [if_neg hd]

/-- Witness for C8 at a concrete input: pointer at `(2, 9)` with padding 5
and border 1 gives text-relative x `-4 < 0`; press only sets focus, drag
does nothing. -/
theorem pointer_negative_noop_witness :
    pointer_press (fun _ _ _ _ => ClickType.single) (fun _ _ e => e) 5 1
        ⟨emptyEditor, false, false, none, 0⟩ (some (2, 9)) 7
      = (if (⟨emptyEditor, false, false, none, 0⟩ : PointerState).focused
          then (⟨emptyEditor, false, false, none, 0⟩ : PointerState)
          else { (⟨emptyEditor, false, false, none, 0⟩ : PointerState) with focused := true }) ∧
      pointer_drag (fun _ e => e) 5 1 ⟨emptyEditor, false, false, none, 0⟩ (some (2, 9))
        = ⟨emptyEditor, false, false, none, 0⟩ :=
  pointer_negative_noop (fun _ _ _ _ => ClickType.single) (fun _ _ e => e)
    (fun _ e => e) 5 1 ⟨emptyEditor, false, false, none, 0⟩ 2 9 7 (by decide)

/-! ## Measurement pass (`syntax_edit_core.rs` lines 73-146) -/

/-- A layout constraint along one axis (`tessera_ui::DimensionValue`):
fixed, wrap with optional bounds, or fill with optional bounds. -/
inductive DimensionValue where
  | Fixed (v : Int)
  | Wrap (minB maxB : Option Int)
  | Fill (minB maxB : Option Int)
deriving DecidableEq, Repr

/-- Resolving the maximum extent in pixels from a constraint
(`syntax_edit_core.rs` lines 81-90): fixed gives that value, wrap and fill
give their declared maximum (possibly absent). -/
def resolveMax : DimensionValue → Option Int
  | .Fixed v => some v
  | .Wrap _ maxB => maxB
  | .Fill _ maxB => maxB

/-- Steps of the measure closure whose relative order the spec fixes. -/
inductive MeasureEv where
  | highlight
  | textQuery
  | geometry
  | draw
deriving DecidableEq, Repr

/-- `i32::MAX`, the stand-in viewport bound for an unbounded axis
(`syntax_edit_core.rs` lines 111-112). -/
def I32_MAX : Int := 2147483647

/-- What the measure closure produces: the step trace, the clipped
selection rectangles stored back into the editor state, and the returned
widget size. -/
structure MeasureResult where
  trace : List MeasureEv
  clippedRects : List RectDef
  width : Int
  height : Int
deriving DecidableEq, Repr

/-- The measure closure of `syntax_edit_core`
(`syntax_edit_core.rs` lines 78-134): resolve the maximum width/height
from the parent constraint, run the optional highlighter, query the shaped
text layout (`text_data`; its reported size enters as `textW`/`textH`),
compute and clip the selection rectangles (the rectangles derived from
the external buffer's layout runs enter as `rects`), emit the text draw
command, and return the widget size: text width plus one cursor-glyph
width (`CURSOR_WIDRH`, entering as `cursorW`), and text height clamped to
the absolute value of the resolved maximum height when one exists. The
`focused` flag is carried but never consulted by the closure. -/
def measure_pass (hasHighlighter : Bool) (widthC heightC : DimensionValue)
    (textW textH cursorW : Int) (rects : List RectDef) (focused : Bool) :
    MeasureResult :=
  let max_width_pixels := resolveMax widthC
  let max_height_pixels := resolveMax heightC
  let tr1 : List MeasureEv := if hasHighlighter then [.highlight] else []
  let tr2 := tr1 ++ [.textQuery]
  let visible_x1 := max_width_pixels.getD I32_MAX
  let visible_y1 := max_height_pixels.getD I32_MAX
  let clipped := clip_and_take_visible rects visible_x1 visible_y1
  let tr3 := tr2 ++ [.geometry]
  let tr4 := tr3 ++ [.draw]
  let constrained_height :=
    match max_height_pixels with
    | some max_h => min textH |max_h|
    | none => textH
  { trace := tr4, clippedRects := clipped,
    width := textW + cursorW, height := constrained_height }

/-- C6: in every measurement pass the supplied highlighter hook runs
exactly once, and the step order is fixed — highlighter, then layout
query, then geometry computation and clipping, then draw emission; with
no hook supplied the remaining steps keep the same order. -/
theorem measure_pass_step_order (widthC heightC : DimensionValue)
    (textW textH cursorW : Int) (rects : List RectDef) (focused : Bool) :
    (measure_pass true widthC heightC textW textH cursorW rects focused).trace
        = [.highlight, .textQuery, .geometry, .draw] ∧
      ((measure_pass true widthC heightC textW textH cursorW rects focused).trace.count
        .highlight) = 1 ∧
      (measure_pass false widthC heightC textW textH cursorW rects focused).trace
        = [.textQuery, .geometry, .draw] :=
  ⟨rfl, rfl, rfl⟩

/-- C7 counterexample: with a fixed height constraint of `-5` (resolved
maximum height `-5`) and shaped text height `3`, the returned height is
`min 3 |-5| = 3`, not the claim's "text height clamped to the resolved
maximum height" `min 3 (-5) = -5`: the code clamps to the absolute value
of the resolved maximum. -/
theorem measure_pass_height_counterexample :
    (measure_pass false (.Fixed 0) (.Fixed (-5)) 0 3 1 [] false).height = 3 ∧
      (measure_pass false (.Fixed 0) (.Fixed (-5)) 0 3 1 [] false).height
        ≠ min 3 (-5) := by
  constructor
  · decide
  · decide

/-- C7 (amended): the returned width is the shaped text width plus exactly
one cursor-glyph width regardless of focus state, and the returned height
is the shaped text height clamped to the absolute value of the resolved
maximum height when one exists (hence to the maximum itself whenever it is
nonnegative) and the text height unchanged when none exists. -/
theorem measure_pass_size (hasHighlighter : Bool)
    (widthC heightC : DimensionValue) (textW textH cursorW : Int)
    (rects : List RectDef) (focused : Bool) :
    (measure_pass hasHighlighter widthC heightC textW textH cursorW rects focused).width
        = textW + cursorW ∧
      (resolveMax heightC = none →
        (measure_pass hasHighlighter widthC heightC textW textH cursorW rects focused).height
          = textH) ∧
      (∀ m, resolveMax heightC = some m →
        (measure_pass hasHighlighter widthC heightC textW textH cursorW rects focused).height
          = min textH |m|) ∧
      (∀ m, resolveMax heightC = some m → 0 ≤ m →
        (measure_pass hasHighlighter widthC heightC textW textH cursorW rects focused).height
          = min textH m) := by
  refine ⟨rfl, ?_, ?_, ?_⟩
  · intro h
    simp [measure_pass, h]
  · intro m h
    simp [measure_pass, h]
  · intro m h hm
    simp only [measure_pass, h]
    rw [abs_of_nonneg hm]

/-- Witness for C7 (amended) at a concrete input: fixed height `5`, text
size `2 × 3`, cursor width `1`: width `2 + 1`, height `min 3 5`. -/
theorem measure_pass_size_witness :
    (measure_pass false (.Fixed 4) (.Fixed 5) 2 3 1 [] true).width = 2 + 1 ∧
      (measure_pass false (.Fixed 4) (.Fixed 5) 2 3 1 [] true).height = min 3 5 :=
  ⟨(measure_pass_size false (.Fixed 4) (.Fixed 5) 2 3 1 [] true).1,
    (measure_pass_size false (.Fixed 4) (.Fixed 5) 2 3 1 [] true).2.2.2 5 rfl
      (by decide)⟩

end Tessera
